import Mathlib

/-!
Verification of the Room & Signaling Hub of the Code_With_Bandhu repository.

The hub's inbound socket handlers live in server.ts; the client-side
signalling handlers live in App.tsx.  The SocketManager class
(room registry, broadcast router, call bookkeeping) is referenced by
server.ts but its file is not part of the provided sources, so its
operations are modelled from the specification (each such definition
carries a doc comment starting with "Modelled from the spec:").

Strings model JavaScript strings; payload fields that may be absent are
modelled as Option String (JavaScript undefined = none); JavaScript
truthiness checks on strings treat both undefined and "" as falsy.
-/

/-- JavaScript truthiness of an optional string: undefined and "" are falsy. -/
def truthy : Option String → Bool
  | none => false
  | some s => s ≠ ""

/-- ASCII uppercase of one character, as JavaScript toUpperCase does for ASCII. -/
def upChar (c : Char) : Char :=
  if 97 ≤ c.toNat ∧ c.toNat ≤ 122 then Char.ofNat (c.toNat - 32) else c

/-- JavaScript String.prototype.toUpperCase restricted to ASCII room ids. -/
def upStr (s : String) : String :=
  String.mk (s.toList.map upChar)

/-- One room of the hub: document text, language tag, member map
(socketId to userName, insertion ordered) and the set of call peers. -/
structure Room where
  name : String
  createdBy : String
  code : Option String
  language : String
  users : List (String × String)
  callPeers : List String
  deriving DecidableEq, Repr

/-- The in-memory room registry: a JavaScript Map from roomId to Room,
modelled as an insertion-ordered association list. -/
abbrev Registry := List (String × Room)

/-- Lookup of the first entry with the given key (JavaScript Map.get). -/
def regGet : Registry → String → Option Room
  | [], _ => none
  | (k, v) :: rest, rid => if k = rid then some v else regGet rest rid

/-- Overwrite the entry with the given key, or append it (JavaScript Map.set). -/
def regSet : Registry → String → Room → Registry
  | [], rid, r => [(rid, r)]
  | (k, v) :: rest, rid, r =>
      if k = rid then (k, r) :: rest else (k, v) :: regSet rest rid r

/-- Membership test on the user map of a room. -/
def usersHas (us : List (String × String)) (sid : String) : Bool :=
  us.any (fun p => p.1 = sid)

/-- Add or overwrite a participant keyed by socket id. -/
def usersSet : List (String × String) → String → String → List (String × String)
  | [], sid, name => [(sid, name)]
  | (k, v) :: rest, sid, name =>
      if k = sid then (k, name) :: rest else (k, v) :: usersSet rest sid name

/-- Remove a participant by socket id. -/
def usersRemove (us : List (String × String)) (sid : String) : List (String × String) :=
  us.filter (fun p => p.1 ≠ sid)

/-- Remove a socket id from a call peer list. -/
def peersRemove (ps : List String) (sid : String) : List String :=
  ps.filter (fun p => p ≠ sid)

/-- Events the server emits to client sockets. -/
inductive ServerEvent where
  | joinError (msg : String)
  | joinSuccess
  | roomCreated (roomId : String) (users : List (String × String))
  | codeUpdate (roomId : String) (code : Option String) (userId : Option String)
  | languageUpdate (language : String)
  | newMessage (msgId message userName userId : String)
  | usersUpdate (users : List (String × String))
  | userJoinedCall (sid : String)
  | userLeftCall (sid : String)
  | callPeersList (peers : List String)
  | webrtcOffer (fromId payload : String)
  | webrtcAnswer (fromId payload : String)
  | webrtcIce (fromId payload : String)
  | cursorUpdate (sid userName payload : String)
  deriving DecidableEq, Repr

/-- One emission: the target socket id together with the event sent to it. -/
abbrev Emission := String × ServerEvent

/-- Modelled from the spec: SocketManager.joinRoom is not under src/ (only its
callers in server.ts are).  Per the Session Gateway contract it adds or
overwrites the Participant keyed by connectionId (idempotent on reconnection),
creating the Room first if it is not yet in the registry (server.ts notes the
manager will load the room from the DB if needed; code and language default to
the empty string and the default language), and broadcasts the updated
membership list to the whole room. -/
def SocketManager.joinRoom (st : Registry) (rid selfId userName : String) :
    Registry × List Emission :=
  let room := match regGet st rid with
    | some r => r
    | none =>
        { name := "", createdBy := "", code := some "", language := "javascript",
          users := [], callPeers := [] }
  let room2 := { room with users := usersSet room.users selfId userName }
  (regSet st rid room2,
   room2.users.map (fun u => (u.1, ServerEvent.usersUpdate room2.users)))

/-- Modelled from the spec: SocketManager.updateCode is not under src/.  Per
the Broadcast Router contract for code-update it first writes
Room.code = payload.code (full-buffer replace) and then fans the event out to
every member of the room except the originating connection id. -/
def SocketManager.updateCode (st : Registry) (rid : String)
    (code userId : Option String) : Registry × List Emission :=
  match regGet st rid with
  | none => (st, [])
  | some room =>
      let room2 := { room with code := code }
      (regSet st rid room2,
       (room.users.filter (fun u => !(some u.1 == userId))).map
         (fun u => (u.1, ServerEvent.codeUpdate rid code userId)))

/-- Modelled from the spec: SocketManager.updateLanguage is not under src/.
Per the Broadcast Router contract it writes Room.language and fans
language-update out to the room (the canonical behavior excludes no one). -/
def SocketManager.updateLanguage (st : Registry) (rid lang : String) :
    Registry × List Emission :=
  match regGet st rid with
  | none => (st, [])
  | some room =>
      let room2 := { room with language := lang }
      (regSet st rid room2,
       room2.users.map (fun u => (u.1, ServerEvent.languageUpdate lang)))

/-- Modelled from the spec: SocketManager.broadcastMessage is not under src/.
Per the Broadcast Router contract for chat-message it mutates no room state
and fans the stamped message out to all members including the sender. -/
def SocketManager.broadcastMessage (st : Registry) (rid : String)
    (msgId message userName userId : String) : Registry × List Emission :=
  match regGet st rid with
  | none => (st, [])
  | some room =>
      (st, room.users.map
        (fun u => (u.1, ServerEvent.newMessage msgId message userName userId)))

/-- Modelled from the spec: SocketManager.broadcastCursorPosition is not under
src/.  It mutates no room state and fans the cursor payload out to the other
members of the room. -/
def SocketManager.broadcastCursor (st : Registry) (rid sid userName payload : String) :
    Registry × List Emission :=
  match regGet st rid with
  | none => (st, [])
  | some room =>
      (st, (room.users.filter (fun u => u.1 ≠ sid)).map
        (fun u => (u.1, ServerEvent.cursorUpdate sid userName payload)))

/-- Modelled from the spec: SocketManager.leaveRoom is not under src/ (the
disconnect handler in server.ts calls it for every room containing the
socket).  Per the Lifecycle Reconciler contract it removes the connection from
Room.users, removes it from the room's call peers if present (emitting the
same user-left-call notification to each remaining peer as an explicit
leave-call would), then broadcasts the updated presence list to the room's
remaining members.  The room itself is never deleted. -/
def SocketManager.leaveRoom (st : Registry) (rid sid : String) :
    Registry × List Emission :=
  match regGet st rid with
  | none => (st, [])
  | some room =>
      let users2 := usersRemove room.users sid
      let peers2 := peersRemove room.callPeers sid
      let callEms := if room.callPeers.contains sid then
          peers2.map (fun p => (p, ServerEvent.userLeftCall sid)) else []
      let room2 := { room with users := users2, callPeers := peers2 }
      (regSet st rid room2,
       callEms ++ users2.map (fun u => (u.1, ServerEvent.usersUpdate users2)))

/-- Kinds of WebRTC signalling messages relayed by the hub. -/
inductive RtcKind where
  | offer
  | answer
  | ice
  deriving DecidableEq, Repr

/-- The outbound event carrying a relayed signalling payload. -/
def rtcEvent : RtcKind → String → String → ServerEvent
  | RtcKind.offer, fromId, payload => ServerEvent.webrtcOffer fromId payload
  | RtcKind.answer, fromId, payload => ServerEvent.webrtcAnswer fromId payload
  | RtcKind.ice, fromId, payload => ServerEvent.webrtcIce fromId payload

/-- Modelled from the spec: the webrtc-offer / webrtc-answer /
webrtc-ice-candidate relay handlers are not under src/ (server.ts registers
none of them; the client in App.tsx emits and consumes them).  Per the
Signaling Relay contract they are pure point-to-point forwarding, validated
only for room membership of the target, and silently dropped (no state
change, no error event) when the target is no longer in the room. -/
def SocketManager.relayRtc (st : Registry) (kind : RtcKind)
    (fromId rid toId payload : String) : Registry × List Emission :=
  match regGet st rid with
  | none => (st, [])
  | some room =>
      if usersHas room.users toId then
        (st, [(toId, rtcEvent kind fromId payload)])
      else (st, [])

/-- Modelled from the spec: the join-call handler is not under src/.  Per the
Signaling Relay contract it adds the connection to the room's call peers and
announces it to the peers already in the call. -/
def SocketManager.joinCall (st : Registry) (rid sid : String) :
    Registry × List Emission :=
  match regGet st rid with
  | none => (st, [])
  | some room =>
      let peers2 := if room.callPeers.contains sid then room.callPeers
        else room.callPeers ++ [sid]
      (regSet st rid { room with callPeers := peers2 },
       (peersRemove room.callPeers sid).map
         (fun p => (p, ServerEvent.userJoinedCall sid)))

/-- Modelled from the spec: the get-call-peers handler is not under src/.  It
returns the current peer list (excluding the requester) to the requester
only. -/
def SocketManager.getCallPeers (st : Registry) (rid sid : String) :
    Registry × List Emission :=
  match regGet st rid with
  | none => (st, [])
  | some room =>
      (st, [(sid, ServerEvent.callPeersList (peersRemove room.callPeers sid))])

/-- Modelled from the spec: the leave-call handler is not under src/.  It
removes the connection from the room's call peers and notifies the remaining
peers with user-left-call. -/
def SocketManager.leaveCall (st : Registry) (rid sid : String) :
    Registry × List Emission :=
  match regGet st rid with
  | none => (st, [])
  | some room =>
      let peers2 := peersRemove room.callPeers sid
      (regSet st rid { room with callPeers := peers2 },
       peers2.map (fun p => (p, ServerEvent.userLeftCall sid)))

/-- Base-36 digit to its JavaScript character ('0'-'9' then 'a'-'z'). -/
def digitChar36 (d : Fin 36) : Char :=
  if d.val < 10 then Char.ofNat (48 + d.val) else Char.ofNat (87 + d.val)

/-- JavaScript Number.prototype.toString(36) of a value in [0, 1), given by
the digit list of its base-36 fractional expansion in shortest form (no
trailing zero digits; the empty list is the value 0, printed "0"). -/
def jsToString36 (digits : List (Fin 36)) : String :=
  if digits.isEmpty then "0"
  else String.mk ('0' :: '.' :: digits.map digitChar36)

/-- JavaScript String.prototype.substring(a, b): characters from index a
(inclusive) to b (exclusive), clamped to the string length. -/
def jsSubstring (s : String) (a b : Nat) : String :=
  String.mk ((s.toList.drop a).take (b - a))

/-- The roomId generator of the create-room handler in server.ts:
Math.random().toString(36).substring(2, 10).toUpperCase(), as a function of
the base-36 fractional digits of the random draw. -/
def genRoomId (digits : List (Fin 36)) : String :=
  upStr (jsSubstring (jsToString36 digits) 2 10)

/-- The create-room handler of server.ts.  It generates a roomId, writes the
room to the external DB first (modelled by the dbOk flag: Room.create either
succeeds or throws), and only on success joins the socket to the in-memory
room via SocketManager.joinRoom and emits room-created; a DB failure is
caught and surfaces as a join-error with no in-memory effect. -/
def handleCreateRoom (st : Registry) (selfId roomName userName : String)
    (randDigits : List (Fin 36)) (dbOk : Bool) : Registry × List Emission :=
  let newRoomId := genRoomId randDigits
  if dbOk then
    let r := SocketManager.joinRoom st newRoomId selfId userName
    let usersPayload := match regGet r.1 newRoomId with
      | some room => room.users
      | none => []
    (r.1, r.2 ++ [(selfId, ServerEvent.roomCreated newRoomId usersPayload)])
  else
    (st, [(selfId, ServerEvent.joinError "Failed to create room")])

/-- The join-room handler of server.ts: uppercases the roomId, looks it up,
emits join-error "Room not found!" on a miss, otherwise joins via
SocketManager.joinRoom and emits join-success. -/
def handleJoinRoom (st : Registry) (selfId roomId userName : String) :
    Registry × List Emission :=
  let rid := upStr roomId
  match regGet st rid with
  | none => (st, [(selfId, ServerEvent.joinError "Room not found!")])
  | some _ =>
      let r := SocketManager.joinRoom st rid selfId userName
      (r.1, r.2 ++ [(selfId, ServerEvent.joinSuccess)])

/-- The code-change handler of server.ts: returns if roomId is falsy,
otherwise calls SocketManager.updateCode with the roomId as supplied (no
uppercasing). -/
def handleCodeChange (st : Registry) (roomId code userId : Option String) :
    Registry × List Emission :=
  match roomId with
  | none => (st, [])
  | some r => if r = "" then (st, []) else SocketManager.updateCode st r code userId

/-- The language-change handler of server.ts: returns if roomId or language is
falsy, otherwise calls SocketManager.updateLanguage with the roomId as
supplied. -/
def handleLanguageChange (st : Registry) (roomId language : Option String) :
    Registry × List Emission :=
  match roomId, language with
  | some r, some lg =>
      if r = "" ∨ lg = "" then (st, []) else SocketManager.updateLanguage st r lg
  | _, _ => (st, [])

/-- The chat-message handler of server.ts: returns if roomId, message or
userName is falsy, otherwise broadcasts the message stamped with a fresh id
and the sender's socket id. -/
def handleChatMessage (st : Registry) (selfId : String)
    (roomId message userName : Option String) (msgId : String) :
    Registry × List Emission :=
  match roomId, message, userName with
  | some r, some m, some un =>
      if r = "" ∨ m = "" ∨ un = "" then (st, [])
      else SocketManager.broadcastMessage st r msgId m un selfId
  | _, _, _ => (st, [])

/-- The cursor-position handler of server.ts: returns if roomId or position is
falsy, otherwise broadcasts the cursor payload. -/
def handleCursorPosition (st : Registry) (selfId : String)
    (roomId position userName : Option String) : Registry × List Emission :=
  match roomId, position with
  | some r, some p =>
      if r = "" ∨ p = "" then (st, [])
      else SocketManager.broadcastCursor st r selfId (userName.getD "") p
  | _, _ => (st, [])

/-- The disconnect handler of server.ts: iterates over all rooms and, for each
room whose user map contains the socket, removes the user via
SocketManager.leaveRoom but never deletes the room. -/
def handleDisconnect (st : Registry) (sid : String) : Registry × List Emission :=
  st.foldl (fun acc kr =>
    if usersHas kr.2.users sid then
      let r := SocketManager.leaveRoom acc.1 kr.1 sid
      (r.1, acc.2 ++ r.2)
    else acc) (st, [])

/-- All inbound events of the hub, with the payload fields each handler
destructures.  randDigits and dbOk stand for the random draw and the outcome
of the external DB write in create-room; msgId for the uuid stamped on a chat
message. -/
inductive InEvent where
  | createRoom (selfId roomName userName : String)
      (randDigits : List (Fin 36)) (dbOk : Bool)
  | joinRoom (selfId roomId userName : String)
  | codeChange (roomId code userId : Option String)
  | languageChange (roomId language : Option String)
  | chatMessage (selfId : String) (roomId message userName : Option String)
      (msgId : String)
  | cursorPosition (selfId : String) (roomId position userName : Option String)
  | joinCall (selfId roomId : String)
  | getCallPeers (selfId roomId : String)
  | leaveCall (selfId roomId : String)
  | rtc (kind : RtcKind) (selfId roomId toId payload : String)
  | disconnect (selfId : String)

/-- One step of the hub: dispatch an inbound event to its handler. -/
def step (st : Registry) : InEvent → Registry × List Emission
  | InEvent.createRoom selfId roomName userName randDigits dbOk =>
      handleCreateRoom st selfId roomName userName randDigits dbOk
  | InEvent.joinRoom selfId roomId userName => handleJoinRoom st selfId roomId userName
  | InEvent.codeChange roomId code userId => handleCodeChange st roomId code userId
  | InEvent.languageChange roomId language => handleLanguageChange st roomId language
  | InEvent.chatMessage selfId roomId message userName msgId =>
      handleChatMessage st selfId roomId message userName msgId
  | InEvent.cursorPosition selfId roomId position userName =>
      handleCursorPosition st selfId roomId position userName
  | InEvent.joinCall selfId roomId => SocketManager.joinCall st roomId selfId
  | InEvent.getCallPeers selfId roomId => SocketManager.getCallPeers st roomId selfId
  | InEvent.leaveCall selfId roomId => SocketManager.leaveCall st roomId selfId
  | InEvent.rtc kind selfId roomId toId payload =>
      SocketManager.relayRtc st kind selfId roomId toId payload
  | InEvent.disconnect selfId => handleDisconnect st selfId

/-- Fold a sequence of code-change events for one room through the hub. -/
def processCodeChanges (st : Registry) (rid : String)
    (evs : List (String × String)) : Registry :=
  evs.foldl (fun s ev => (handleCodeChange s (some rid) (some ev.1) (some ev.2)).1) st

/-- Test whether an emission is a user-left-call notification. -/
def isUserLeftCall (e : Emission) : Bool :=
  match e.2 with
  | ServerEvent.userLeftCall _ => true
  | _ => false

/-- State of the negotiating client's peer bookkeeping in App.tsx: the
peerConnections ref (peer socket id to its RTCPeerConnection, connections
numbered in creation order) and the count of connections created so far. -/
structure ClientCallState where
  pcs : List (String × Nat)
  nextPc : Nat
  deriving DecidableEq, Repr

/-- Lookup in the peer-connection map. -/
def pcsGet : List (String × Nat) → String → Option Nat
  | [], _ => none
  | (k, v) :: rest, sid => if k = sid then some v else pcsGet rest sid

/-- Store a connection under a peer id, overwriting any existing entry. -/
def pcsSet : List (String × Nat) → String → Nat → List (String × Nat)
  | [], sid, pc => [(sid, pc)]
  | (k, v) :: rest, sid, pc =>
      if k = sid then (k, pc) :: rest else (k, v) :: pcsSet rest sid pc

/-- Signalling messages the client emits while negotiating. -/
inductive ClientEvent where
  | offerTo (roomId toId : String) (pc : Nat)
  | answerTo (roomId toId : String) (pc : Nat)
  deriving DecidableEq, Repr

/-- createPeerConnection of App.tsx: builds a fresh RTCPeerConnection and
stores it in peerConnections.current under the peer's socket id, overwriting
any entry already there; returns the new connection. -/
def createPeerConnection (cs : ClientCallState) (peer : String) :
    ClientCallState × Nat :=
  ({ pcs := pcsSet cs.pcs peer cs.nextPc, nextPc := cs.nextPc + 1 }, cs.nextPc)

/-- The call-peers-list handler of App.tsx: returns if there is no local
stream or no room; otherwise, for every listed peer not already in the
peer-connection map, creates a connection and sends it an offer. -/
def onCallPeersList (hasLocalStream : Bool) (roomId : Option String)
    (cs : ClientCallState) (peerIds : List String) :
    ClientCallState × List ClientEvent :=
  if !hasLocalStream || !(truthy roomId) then (cs, [])
  else
    peerIds.foldl (fun acc peerId =>
      match pcsGet acc.1.pcs peerId with
      | some _ => acc
      | none =>
          let r := createPeerConnection acc.1 peerId
          (r.1, acc.2 ++ [ClientEvent.offerTo (roomId.getD "") peerId r.2])) (cs, [])

/-- The user-joined-call handler of App.tsx: returns if there is no room;
returns without touching anything if a connection for that peer already
exists; otherwise creates a connection and, when broadcasting a local stream,
sends the new peer an offer. -/
def onUserJoinedCall (hasLocalStream : Bool) (roomId : Option String)
    (cs : ClientCallState) (otherId : String) : ClientCallState × List ClientEvent :=
  if !(truthy roomId) then (cs, [])
  else if (pcsGet cs.pcs otherId).isSome then (cs, [])
  else
    let r := createPeerConnection cs otherId
    (r.1, if hasLocalStream then [ClientEvent.offerTo (roomId.getD "") otherId r.2] else [])

/-- The webrtc-offer handler of App.tsx: returns if there is no room;
otherwise unconditionally creates a connection for the sender (overwriting
any existing entry in the map) and replies with an answer. -/
def onWebrtcOffer (roomId : Option String) (cs : ClientCallState)
    (fromId : String) : ClientCallState × List ClientEvent :=
  if !(truthy roomId) then (cs, [])
  else
    let r := createPeerConnection cs fromId
    (r.1, [ClientEvent.answerTo (roomId.getD "") fromId r.2])

theorem regGet_regSet_self (st : Registry) (rid : String) (r : Room) :
    regGet (regSet st rid r) rid = some r := by
  induction st with
  | nil => simp [regSet, regGet]
  | cons p rest ih =>
      obtain ⟨k, v⟩ := p
      by_cases hk : k = rid
      · simp [regSet, regGet, hk]
      · simp [regSet, regGet, hk, ih]

theorem regGet_regSet_ne (st : Registry) (rid k : String) (r : Room)
    (h : k ≠ rid) : regGet (regSet st rid r) k = regGet st k := by
  have h' : ¬ rid = k := fun hh => h hh.symm
  induction st with
  | nil => simp [regSet, regGet, h']
  | cons p rest ih =>
      obtain ⟨k', v⟩ := p
      by_cases hk : k' = rid
      · subst hk
        simp [regSet, regGet, h']
      · simp [regSet, regGet, hk, ih]

theorem regGet_isSome_regSet (st : Registry) (rid k : String) (r : Room)
    (h : (regGet st k).isSome) : (regGet (regSet st rid r) k).isSome := by
  by_cases hk : k = rid
  · subst hk; simp [regGet_regSet_self]
  · rwa [regGet_regSet_ne st rid k r hk]

/-- C2: for every join-room request whose uppercased roomId is not in the
registry, the hub emits a join-error ("Room not found!") to the requester
only and leaves the registry completely unchanged — no room is created and
no participant is added. -/
theorem join_room_not_found (st : Registry) (selfId roomId userName : String)
    (h : regGet st (upStr roomId) = none) :
    handleJoinRoom st selfId roomId userName
      = (st, [(selfId, ServerEvent.joinError "Room not found!")]) := by
  simp [handleJoinRoom, h]

/-- C2 witness: joining room "abcd" against the empty registry fails with
"Room not found!" and mutates nothing. -/
theorem join_room_not_found_witness :
    regGet [] (upStr "abcd") = none
    ∧ handleJoinRoom [] "S1" "abcd" "Alice"
        = ([], [("S1", ServerEvent.joinError "Room not found!")]) :=
  ⟨rfl, join_room_not_found [] "S1" "abcd" "Alice" rfl⟩

/-- C10: a code-change, language-change or chat-message event missing a
required field (roomId for all three; language for language-change; message
or userName for chat-message) is a silent no-op: the handler leaves the
registry unchanged and emits nothing to any connection (in particular it
emits no error and issues no disconnect). -/
theorem malformed_events_are_noops (st : Registry) (selfId msgId : String)
    (roomId code userId language message userName : Option String) :
    handleCodeChange st none code userId = (st, [])
    ∧ handleLanguageChange st none language = (st, [])
    ∧ handleLanguageChange st roomId none = (st, [])
    ∧ handleChatMessage st selfId none message userName msgId = (st, [])
    ∧ handleChatMessage st selfId roomId none userName msgId = (st, [])
    ∧ handleChatMessage st selfId roomId message none msgId = (st, []) := by
  refine ⟨rfl, rfl, ?_, rfl, ?_, ?_⟩
  · cases roomId <;> rfl
  · cases roomId <;> cases userName <;> rfl
  · cases roomId <;> cases message <;> rfl

/-- C5 counterexample: when the external DB write fails during create-room
(here on the empty registry, with Math.random's base-36 digits 1..8), the
handler emits join-error and the in-memory room does NOT exist afterwards —
the claim that the room still exists and remains usable is false. -/
theorem create_room_db_failure_no_room :
    handleCreateRoom [] "S1" "My Room" "Alice"
        [(1 : Fin 36), 2, 3, 4, 5, 6, 7, 8] false
      = ([], [("S1", ServerEvent.joinError "Failed to create room")])
    ∧ regGet (handleCreateRoom [] "S1" "My Room" "Alice"
        [(1 : Fin 36), 2, 3, 4, 5, 6, 7, 8] false).1
        (genRoomId [(1 : Fin 36), 2, 3, 4, 5, 6, 7, 8]) = none := by
  exact ⟨rfl, rfl⟩

/-- C5 amended: when the external room-catalog write fails during
create-room, the failure surfaces to the caller as a join-error and the
in-memory hub state is left completely unchanged; no in-memory room is
created (the DB write precedes the in-memory creation, so persistence
failure aborts the create flow instead of degrading to a warning). -/
theorem create_room_db_failure_state (st : Registry)
    (selfId roomName userName : String) (digits : List (Fin 36)) :
    handleCreateRoom st selfId roomName userName digits false
      = (st, [(selfId, ServerEvent.joinError "Failed to create room")]) := rfl

/-- C4 counterexample, refuting both conjuncts of the claim.  First,
Math.random() can return exactly 0.5, whose base-36 expansion is the single
digit 18 ("0.i" in JavaScript), so
Math.random().toString(36).substring(2, 10).toUpperCase() is "I": a
1-character token, not an 8-character one.  Second, when that same draw is
made against a registry already holding room "I" and the DB write succeeds,
create-room does not generate a fresh identifier: it reports room-created
with the very same colliding id "I" and merely joins the caller into the
already-existing room. -/
theorem roomId_short_and_collision_unchecked :
    (genRoomId [(18 : Fin 36)] = "I" ∧ (genRoomId [(18 : Fin 36)]).length ≠ 8)
    ∧ (handleCreateRoom
        [("I", Room.mk "old" "Alice" (some "") "javascript" [("A", "Alice")] [])]
        "S2" "proj" "Bob" [(18 : Fin 36)] true).2
      = [("A", ServerEvent.usersUpdate [("A", "Alice"), ("S2", "Bob")]),
         ("S2", ServerEvent.usersUpdate [("A", "Alice"), ("S2", "Bob")]),
         ("S2", ServerEvent.roomCreated "I" [("A", "Alice"), ("S2", "Bob")])]
    ∧ (handleCreateRoom
        [("I", Room.mk "old" "Alice" (some "") "javascript" [("A", "Alice")] [])]
        "S2" "proj" "Bob" [(18 : Fin 36)] true).1
      = [("I", Room.mk "old" "Alice" (some "") "javascript"
            [("A", "Alice"), ("S2", "Bob")] [])] := by
  exact ⟨⟨by decide, by decide⟩, by decide, by decide⟩

theorem upChar_digitChar36_shape : ∀ d : Fin 36,
    (48 ≤ (upChar (digitChar36 d)).toNat ∧ (upChar (digitChar36 d)).toNat ≤ 57)
    ∨ (65 ≤ (upChar (digitChar36 d)).toNat ∧ (upChar (digitChar36 d)).toNat ≤ 90) := by
  decide

theorem toList_mk (l : List Char) : (String.mk l).toList = l := rfl

theorem length_toList (s : String) : s.length = s.toList.length := rfl

theorem managerJoinRoom_hit (st : Registry) (rid selfId userName : String)
    (room : Room) (h : regGet st rid = some room) :
    SocketManager.joinRoom st rid selfId userName
      = (regSet st rid { room with users := usersSet room.users selfId userName },
         (usersSet room.users selfId userName).map
           (fun u => (u.1, ServerEvent.usersUpdate
             (usersSet room.users selfId userName)))) := by
  simp [SocketManager.joinRoom, h]

/-- C4 amended: every roomId generated by create-room is an uppercase
base-36 token of length at most 8, the length being exactly 8 precisely
when the random draw's base-36 expansion has at least 8 digits; and create
performs no collision check and never regenerates: the generated id is used
as-is, so a create whose id collides with an existing registry entry (and
whose DB write succeeds) simply joins the caller into the already-existing
room and reports room-created with that same colliding id. -/
theorem roomId_shape (digits : List (Fin 36)) :
    (genRoomId digits).length ≤ 8
    ∧ (∀ ch ∈ (genRoomId digits).toList,
        (48 ≤ ch.toNat ∧ ch.toNat ≤ 57) ∨ (65 ≤ ch.toNat ∧ ch.toNat ≤ 90))
    ∧ ((genRoomId digits).length = 8 ↔ 8 ≤ digits.length)
    ∧ (∀ st selfId rn un room, regGet st (genRoomId digits) = some room →
        handleCreateRoom st selfId rn un digits true
          = (regSet st (genRoomId digits)
               { room with users := usersSet room.users selfId un },
             (usersSet room.users selfId un).map
               (fun u => (u.1, ServerEvent.usersUpdate
                 (usersSet room.users selfId un)))
             ++ [(selfId, ServerEvent.roomCreated (genRoomId digits)
                   (usersSet room.users selfId un))])) := by
  have hcol : ∀ st selfId rn un room, regGet st (genRoomId digits) = some room →
      handleCreateRoom st selfId rn un digits true
        = (regSet st (genRoomId digits)
             { room with users := usersSet room.users selfId un },
           (usersSet room.users selfId un).map
             (fun u => (u.1, ServerEvent.usersUpdate
               (usersSet room.users selfId un)))
           ++ [(selfId, ServerEvent.roomCreated (genRoomId digits)
                 (usersSet room.users selfId un))]) := by
    intro st selfId rn un room h
    have hj := managerJoinRoom_hit st (genRoomId digits) selfId un room h
    simp [handleCreateRoom, hj, regGet_regSet_self]
  rcases digits with _ | ⟨d, ds⟩
  · exact ⟨by decide, by decide, by decide, hcol⟩
  · have htl : (genRoomId (d :: ds)).toList
        = (((d :: ds).map digitChar36).take 8).map upChar := by
      simp [genRoomId, jsToString36, jsSubstring, upStr, toList_mk]
    have hlen : (genRoomId (d :: ds)).length
        = min 8 (ds.length + 1) := by
      rw [length_toList, htl]
      simp
      omega
    refine ⟨?_, ?_, ?_, hcol⟩
    · omega
    · intro ch hch
      rw [htl] at hch
      simp only [List.mem_map] at hch
      obtain ⟨c', hc', rfl⟩ := hch
      have hc'' : c' ∈ (d :: ds).map digitChar36 := List.take_subset _ _ hc'
      simp only [List.mem_map] at hc''
      obtain ⟨dd, _, rfl⟩ := hc''
      exact upChar_digitChar36_shape dd
    · rw [hlen]
      simp only [List.length_cons]
      omega

/-- C4 amended witness: an 8-digit expansion yields a full 8-character id,
and a colliding create (room "I" already present, DB write succeeding)
reuses the id "I" and joins the caller into the existing room. -/
theorem roomId_shape_witness :
    (genRoomId [(1 : Fin 36), 2, 3, 4, 5, 6, 7, 8]).length = 8
    ∧ handleCreateRoom
        [("I", Room.mk "old" "Alice" (some "") "javascript" [("A", "Alice")] [])]
        "S2" "proj" "Bob" [(18 : Fin 36)] true
      = (regSet [("I", Room.mk "old" "Alice" (some "") "javascript"
            [("A", "Alice")] [])] (genRoomId [(18 : Fin 36)])
           { Room.mk "old" "Alice" (some "") "javascript" [("A", "Alice")] [] with
             users := usersSet [("A", "Alice")] "S2" "Bob" },
         (usersSet [("A", "Alice")] "S2" "Bob").map
           (fun u => (u.1, ServerEvent.usersUpdate
             (usersSet [("A", "Alice")] "S2" "Bob")))
         ++ [("S2", ServerEvent.roomCreated (genRoomId [(18 : Fin 36)])
               (usersSet [("A", "Alice")] "S2" "Bob"))]) :=
  ⟨(roomId_shape [(1 : Fin 36), 2, 3, 4, 5, 6, 7, 8]).2.2.1.mpr (by decide),
   (roomId_shape [(18 : Fin 36)]).2.2.2
     [("I", Room.mk "old" "Alice" (some "") "javascript" [("A", "Alice")] [])]
     "S2" "proj" "Bob"
     (Room.mk "old" "Alice" (some "") "javascript" [("A", "Alice")] [])
     (by decide)⟩

/-- C3 counterexample: the code-change handler does not uppercase the roomId.
With room "ABCD1234" in the registry (members A and B), a code-change naming
"abcd1234" — the same identifier up to casing — mutates nothing and delivers
nothing, instead of reading and mutating the room as the claim states. -/
theorem code_change_does_not_normalize_roomId :
    upStr "abcd1234" = "ABCD1234"
    ∧ handleCodeChange
        [("ABCD1234",
          { name := "demo", createdBy := "Alice", code := some "",
            language := "javascript",
            users := [("A", "Alice"), ("B", "Bob")], callPeers := [] })]
        (some "abcd1234") (some "print(1)") (some "A")
      = ([("ABCD1234",
          { name := "demo", createdBy := "Alice", code := some "",
            language := "javascript",
            users := [("A", "Alice"), ("B", "Bob")], callPeers := [] })], []) := by
  exact ⟨by decide, by decide⟩

/-- C3 amended: only the join-room handler normalizes the roomId to uppercase
before the registry lookup (its outcome depends on the id only through its
uppercased form); the code-change, language-change and chat-message handlers
look the client-supplied roomId up verbatim, so an id differing from the
stored key only in case misses the room and the event is a silent no-op
(clients themselves uppercase ids before emitting). -/
theorem roomId_normalized_only_on_join (st : Registry)
    (selfId r1 r2 rid userName msgId lg m un : String) (code userId : Option String)
    (hup : upStr r1 = upStr r2)
    (hmiss : regGet st rid = none) (hrid : rid ≠ "")
    (hlg : lg ≠ "") (hm : m ≠ "") (hun : un ≠ "") :
    handleJoinRoom st selfId r1 userName = handleJoinRoom st selfId r2 userName
    ∧ handleCodeChange st (some rid) code userId = (st, [])
    ∧ handleLanguageChange st (some rid) (some lg) = (st, [])
    ∧ handleChatMessage st selfId (some rid) (some m) (some un) msgId = (st, []) := by
  refine ⟨?_, ?_, ?_, ?_⟩
  · unfold handleJoinRoom
    rw [hup]
  · simp [handleCodeChange, hrid, SocketManager.updateCode, hmiss]
  · simp [handleLanguageChange, hrid, hlg, SocketManager.updateLanguage, hmiss]
  · simp [handleChatMessage, hrid, hm, hun, SocketManager.broadcastMessage, hmiss]

/-- C3 amended witness: "ab" and "aB" behave identically for join-room, while
a lowercase code-change against a registry holding only "AB" is a no-op. -/
theorem roomId_normalized_only_on_join_witness :
    handleJoinRoom
        [("AB",
          { name := "demo", createdBy := "Alice", code := some "",
            language := "javascript", users := [("A", "Alice")], callPeers := [] })]
        "S1" "ab" "Bob"
      = handleJoinRoom
          [("AB",
            { name := "demo", createdBy := "Alice", code := some "",
              language := "javascript", users := [("A", "Alice")], callPeers := [] })]
          "S1" "aB" "Bob"
    ∧ handleCodeChange
        [("AB",
          { name := "demo", createdBy := "Alice", code := some "",
            language := "javascript", users := [("A", "Alice")], callPeers := [] })]
        (some "ab") (some "x") (some "A")
      = ([("AB",
          { name := "demo", createdBy := "Alice", code := some "",
            language := "javascript", users := [("A", "Alice")], callPeers := [] })], []) := by
  have h := roomId_normalized_only_on_join
    [("AB",
      { name := "demo", createdBy := "Alice", code := some "",
        language := "javascript", users := [("A", "Alice")], callPeers := [] })]
    "S1" "ab" "aB" "ab" "Bob" "m1" "python" "hello" "Bob" (some "x") (some "A")
    (by decide) (by decide) (by decide) (by decide) (by decide) (by decide)
  exact ⟨h.1, h.2.1⟩

theorem handleCodeChange_state (st : Registry) (rid : String) (room : Room)
    (c a : Option String) (h : regGet st rid = some room) (hrid : rid ≠ "") :
    (handleCodeChange st (some rid) c a).1 = regSet st rid { room with code := c } := by
  simp [handleCodeChange, hrid, SocketManager.updateCode, h]


theorem handleCodeChange_emits (st : Registry) (rid : String) (room : Room)
    (c a : Option String) (h : regGet st rid = some room) (hrid : rid ≠ "") :
    (handleCodeChange st (some rid) c a).2
      = (room.users.filter (fun u => !(some u.1 == a))).map
          (fun u => (u.1, ServerEvent.codeUpdate rid c a)) := by
  simp [handleCodeChange, hrid, SocketManager.updateCode, h]

/-- C1: a code-change for an existing room whose payload names originator a
stores the payload code in the room (full-buffer replace), delivers the
code-update to every member other than a, never echoes it to a; and after
any nonempty sequence of code-change events for the room, the stored
document equals the payload of the most recently processed one. -/
theorem code_change_lww_and_fanout (st : Registry) (rid c a : String)
    (room : Room) (evs : List (String × String))
    (h : regGet st rid = some room) (hrid : rid ≠ "")
    (hlast : evs.getLast? = some (c, a)) :
    (∀ st' room', regGet st' rid = some room' →
      (∀ e ∈ (handleCodeChange st' (some rid) (some c) (some a)).2,
          e.1 ≠ a ∧ e.2 = ServerEvent.codeUpdate rid (some c) (some a))
      ∧ (∀ u ∈ room'.users, u.1 ≠ a →
          (u.1, ServerEvent.codeUpdate rid (some c) (some a))
            ∈ (handleCodeChange st' (some rid) (some c) (some a)).2)
      ∧ ∃ r2, regGet (handleCodeChange st' (some rid) (some c) (some a)).1 rid
            = some r2 ∧ r2.code = some c)
    ∧ ∃ r2, regGet (processCodeChanges st rid evs) rid = some r2
        ∧ r2.code = some c := by
  constructor
  · intro st' room' h'
    refine ⟨?_, ?_, ?_⟩
    · intro e he
      rw [handleCodeChange_emits st' rid room' (some c) (some a) h' hrid] at he
      simp only [List.mem_map, List.mem_filter] at he
      obtain ⟨u, ⟨hu, hf⟩, rfl⟩ := he
      simp only [Bool.not_eq_true', beq_eq_false_iff_ne, ne_eq,
        Option.some.injEq] at hf
      exact ⟨hf, rfl⟩
    · intro u hu hne
      rw [handleCodeChange_emits st' rid room' (some c) (some a) h' hrid]
      simp only [List.mem_map, List.mem_filter]
      refine ⟨u, ⟨hu, ?_⟩, rfl⟩
      simp [hne]
    · refine ⟨{ room' with code := some c }, ?_, rfl⟩
      rw [handleCodeChange_state st' rid room' (some c) (some a) h' hrid]
      exact regGet_regSet_self _ _ _
  · revert h hlast
    induction evs generalizing st room with
    | nil => intro h hlast; simp at hlast
    | cons hd tl ih =>
        intro h hlast
        rcases tl with _ | ⟨hd2, tl2⟩
        · have hhd : hd = (c, a) := by simpa using hlast
          subst hhd
          simp only [processCodeChanges, List.foldl_cons, List.foldl_nil]
          rw [handleCodeChange_state st rid room (some c) (some a) h hrid]
          exact ⟨{ room with code := some c }, regGet_regSet_self _ _ _, rfl⟩
        · rw [List.getLast?_cons_cons] at hlast
          have h1 : regGet (handleCodeChange st (some rid) (some hd.1) (some hd.2)).1 rid
              = some { room with code := some hd.1 } := by
            rw [handleCodeChange_state st rid room (some hd.1) (some hd.2) h hrid]
            exact regGet_regSet_self _ _ _
          have hih := ih (handleCodeChange st (some rid) (some hd.1) (some hd.2)).1
            { room with code := some hd.1 } h1 hlast
          simpa [processCodeChanges, List.foldl_cons] using hih

/-- C1 witness: in room "R" with members A and B, after the code-change
sequence [("x", "B"), ("y", "A")] the stored document is "y", the payload of
the most recently processed event. -/
theorem code_change_lww_and_fanout_witness :
    ∃ r2, regGet (processCodeChanges
        [("R", { name := "demo", createdBy := "Alice", code := some "",
                 language := "javascript",
                 users := [("A", "Alice"), ("B", "Bob")], callPeers := [] })]
        "R" [("x", "B"), ("y", "A")]) "R" = some r2
      ∧ r2.code = some "y" :=
  (code_change_lww_and_fanout
    [("R", { name := "demo", createdBy := "Alice", code := some "",
             language := "javascript",
             users := [("A", "Alice"), ("B", "Bob")], callPeers := [] })]
    "R" "y" "A"
    { name := "demo", createdBy := "Alice", code := some "",
      language := "javascript",
      users := [("A", "Alice"), ("B", "Bob")], callPeers := [] }
    [("x", "B"), ("y", "A")] (by decide) (by decide) (by decide)).2

/-- C8: a webrtc-offer, webrtc-answer or webrtc-ice-candidate naming target
connection toId never changes hub state; when toId is a member of the room
the payload is forwarded verbatim to toId and to no one else; when toId is
no longer in the room the message is silently dropped — no emission at all,
in particular no error. -/
theorem relay_point_to_point (st : Registry) (kind : RtcKind)
    (fromId rid toId payload : String) (room : Room)
    (h : regGet st rid = some room) :
    (SocketManager.relayRtc st kind fromId rid toId payload).1 = st
    ∧ (usersHas room.users toId = true →
        (SocketManager.relayRtc st kind fromId rid toId payload).2
          = [(toId, rtcEvent kind fromId payload)])
    ∧ (usersHas room.users toId = false →
        (SocketManager.relayRtc st kind fromId rid toId payload).2 = [])
    ∧ ∀ e ∈ (SocketManager.relayRtc st kind fromId rid toId payload).2,
        e.1 = toId ∧ e.2 = rtcEvent kind fromId payload := by
  unfold SocketManager.relayRtc
  rw [h]
  by_cases hm : usersHas room.users toId = true
  · simp [hm]
  · simp only [Bool.not_eq_true] at hm
    simp [hm]

/-- C8 witness: with members A and B in room "R", an offer from A to B is
delivered to B alone and the registry is untouched; an offer to the departed
C is dropped without error. -/
theorem relay_point_to_point_witness :
    (SocketManager.relayRtc
        [("R", { name := "demo", createdBy := "Alice", code := some "",
                 language := "javascript",
                 users := [("A", "Alice"), ("B", "Bob")], callPeers := [] })]
        RtcKind.offer "A" "R" "B" "sdp").1
      = [("R", { name := "demo", createdBy := "Alice", code := some "",
                 language := "javascript",
                 users := [("A", "Alice"), ("B", "Bob")], callPeers := [] })]
    ∧ (SocketManager.relayRtc
        [("R", { name := "demo", createdBy := "Alice", code := some "",
                 language := "javascript",
                 users := [("A", "Alice"), ("B", "Bob")], callPeers := [] })]
        RtcKind.offer "A" "R" "B" "sdp").2
      = [("B", rtcEvent RtcKind.offer "A" "sdp")]
    ∧ (SocketManager.relayRtc
        [("R", { name := "demo", createdBy := "Alice", code := some "",
                 language := "javascript",
                 users := [("A", "Alice"), ("B", "Bob")], callPeers := [] })]
        RtcKind.offer "A" "R" "C" "sdp").2 = [] := by
  have h1 := relay_point_to_point
    [("R", { name := "demo", createdBy := "Alice", code := some "",
             language := "javascript",
             users := [("A", "Alice"), ("B", "Bob")], callPeers := [] })]
    RtcKind.offer "A" "R" "B" "sdp"
    { name := "demo", createdBy := "Alice", code := some "",
      language := "javascript",
      users := [("A", "Alice"), ("B", "Bob")], callPeers := [] } (by decide)
  have h2 := relay_point_to_point
    [("R", { name := "demo", createdBy := "Alice", code := some "",
             language := "javascript",
             users := [("A", "Alice"), ("B", "Bob")], callPeers := [] })]
    RtcKind.offer "A" "R" "C" "sdp"
    { name := "demo", createdBy := "Alice", code := some "",
      language := "javascript",
      users := [("A", "Alice"), ("B", "Bob")], callPeers := [] } (by decide)
  exact ⟨h1.1, h1.2.1 (by decide), h2.2.2.1 (by decide)⟩

theorem pcsGet_pcsSet_self (l : List (String × Nat)) (sid : String) (pc : Nat) :
    pcsGet (pcsSet l sid pc) sid = some pc := by
  induction l with
  | nil => simp [pcsSet, pcsGet]
  | cons p rest ih =>
      obtain ⟨k, v⟩ := p
      by_cases hk : k = sid
      · simp [pcsSet, pcsGet, hk]
      · simp [pcsSet, pcsGet, hk, ih]

theorem pcsGet_pcsSet_ne (l : List (String × Nat)) (sid k : String) (pc : Nat)
    (h : k ≠ sid) : pcsGet (pcsSet l sid pc) k = pcsGet l k := by
  have h' : ¬ sid = k := fun hh => h hh.symm
  induction l with
  | nil => simp [pcsSet, pcsGet, h']
  | cons p rest ih =>
      obtain ⟨k', v⟩ := p
      by_cases hk : k' = sid
      · subst hk
        simp [pcsSet, pcsGet, h']
      · simp [pcsSet, pcsGet, hk, ih]

/-- C9 counterexample: the client already holds live connection number 0 for
peer "B"; an incoming webrtc-offer from "B" nevertheless constructs a new
RTCPeerConnection (number 1) and overwrites the stored one — the offer
handler has no idempotence guard. -/
theorem webrtc_offer_replaces_existing_pc :
    pcsGet (ClientCallState.mk [("B", 0)] 1).pcs "B" = some 0
    ∧ (onWebrtcOffer (some "R") (ClientCallState.mk [("B", 0)] 1) "B").1
        = ClientCallState.mk [("B", 1)] 2 := by
  exact ⟨by decide, by decide⟩

theorem foldPeers_preserves (rid : String) (l : List String)
    (acc : ClientCallState × List ClientEvent) (peer : String) (pc : Nat)
    (h : pcsGet acc.1.pcs peer = some pc) :
    pcsGet ((l.foldl (fun acc peerId =>
      match pcsGet acc.1.pcs peerId with
      | some _ => acc
      | none =>
          let r := createPeerConnection acc.1 peerId
          (r.1, acc.2 ++ [ClientEvent.offerTo rid peerId r.2])) acc).1.pcs)
      peer = some pc := by
  induction l generalizing acc with
  | nil => simpa using h
  | cons x xs ih =>
      simp only [List.foldl_cons]
      apply ih
      rcases hx : pcsGet acc.1.pcs x with _ | pcx
      · have hxp : ¬ peer = x := by
          intro hh
          rw [hh, hx] at h
          cases h
        simp only [hx, createPeerConnection]
        rw [pcsGet_pcsSet_ne _ _ _ _ hxp]
        exact h
      · simp only [hx]
        exact h

/-- C9 amended: discovering an already-connected peer through
user-joined-call or call-peers-list is a no-op — no new RTCPeerConnection is
created and the stored one is kept — but the webrtc-offer handler has no
such guard: whenever a room is set it unconditionally creates a fresh
connection for the sender and overwrites any existing map entry. -/
theorem known_peer_no_new_connection (hasLocalStream : Bool)
    (roomId : Option String) (cs : ClientCallState) (peer : String) (pc : Nat)
    (peerIds : List String)
    (h : pcsGet cs.pcs peer = some pc) :
    onUserJoinedCall hasLocalStream roomId cs peer = (cs, [])
    ∧ pcsGet (onCallPeersList hasLocalStream roomId cs peerIds).1.pcs peer = some pc
    ∧ (truthy roomId = true →
        pcsGet (onWebrtcOffer roomId cs peer).1.pcs peer = some cs.nextPc
        ∧ (onWebrtcOffer roomId cs peer).1.nextPc = cs.nextPc + 1) := by
  refine ⟨?_, ?_, ?_⟩
  · unfold onUserJoinedCall
    by_cases ht : truthy roomId = true
    · simp [ht, h]
    · simp only [Bool.not_eq_true] at ht
      simp [ht]
  · unfold onCallPeersList
    by_cases hg : (!hasLocalStream || !(truthy roomId)) = true
    · simp [hg, h]
    · simp only [hg, Bool.if_false_left]
      simp only [Bool.not_eq_true] at hg
      rw [if_neg (by simp [hg])]
      exact foldPeers_preserves (roomId.getD "") peerIds (cs, []) peer pc h
  · intro ht
    unfold onWebrtcOffer
    simp only [ht, Bool.not_true, Bool.false_eq_true, if_false, createPeerConnection]
    exact ⟨pcsGet_pcsSet_self _ _ _, trivial⟩

/-- C9 amended witness: with connection 0 stored for "B", a user-joined-call
for "B" and a call-peers-list containing "B" change nothing, while a
webrtc-offer from "B" creates connection 1. -/
theorem known_peer_no_new_connection_witness :
    onUserJoinedCall true (some "R") (ClientCallState.mk [("B", 0)] 1) "B"
      = (ClientCallState.mk [("B", 0)] 1, [])
    ∧ pcsGet (onCallPeersList true (some "R")
        (ClientCallState.mk [("B", 0)] 1) ["B", "C"]).1.pcs "B" = some 0
    ∧ pcsGet (onWebrtcOffer (some "R")
        (ClientCallState.mk [("B", 0)] 1) "B").1.pcs "B" = some 1 := by
  have hw := known_peer_no_new_connection true (some "R")
    (ClientCallState.mk [("B", 0)] 1) "B" 0 ["B", "C"] (by decide)
  exact ⟨hw.1, hw.2.1, (hw.2.2 (by decide)).1⟩

theorem leaveRoom_miss (st : Registry) (rid sid : String)
    (h : regGet st rid = none) : SocketManager.leaveRoom st rid sid = (st, []) := by
  simp [SocketManager.leaveRoom, h]

theorem leaveRoom_hit (st : Registry) (rid sid : String) (room : Room)
    (h : regGet st rid = some room) :
    SocketManager.leaveRoom st rid sid
      = (regSet st rid { room with users := usersRemove room.users sid,
                                   callPeers := peersRemove room.callPeers sid },
         (if room.callPeers.contains sid then
            (peersRemove room.callPeers sid).map
              (fun p => (p, ServerEvent.userLeftCall sid))
          else [])
         ++ (usersRemove room.users sid).map
              (fun u => (u.1, ServerEvent.usersUpdate (usersRemove room.users sid)))) := by
  simp [SocketManager.leaveRoom, h]

theorem leaveRoom_regGet_ne (st : Registry) (rid sid k : String) (h : k ≠ rid) :
    regGet (SocketManager.leaveRoom st rid sid).1 k = regGet st k := by
  rcases hr : regGet st rid with _ | room
  · rw [leaveRoom_miss st rid sid hr]
  · rw [leaveRoom_hit st rid sid room hr]
    exact regGet_regSet_ne st rid k _ h

theorem leaveRoom_presence (st : Registry) (rid sid k : String)
    (h : (regGet st k).isSome) :
    (regGet (SocketManager.leaveRoom st rid sid).1 k).isSome := by
  rcases hr : regGet st rid with _ | room
  · rw [leaveRoom_miss st rid sid hr]; exact h
  · rw [leaveRoom_hit st rid sid room hr]
    exact regGet_isSome_regSet st rid k _ h

theorem regGet_mem (st : Registry) (k : String) (room : Room)
    (h : regGet st k = some room) : (k, room) ∈ st := by
  induction st with
  | nil => cases h
  | cons p rest ih =>
      obtain ⟨k', v⟩ := p
      by_cases hk : k' = k
      · subst hk
        have h' : v = room := by simpa [regGet] using h
        subst h'
        exact List.mem_cons_self _ _
      · simp only [regGet, if_neg hk] at h
        exact List.mem_cons_of_mem _ (ih h)

theorem usersRemove_not_has (us : List (String × String)) (sid : String)
    (h : usersHas us sid = false) : usersRemove us sid = us := by
  rw [usersRemove, List.filter_eq_self]
  intro p hp
  simp only [usersHas, List.any_eq_false] at h
  simpa using h p hp

theorem usersHas_usersRemove (us : List (String × String)) (sid : String) :
    usersHas (usersRemove us sid) sid = false := by
  rw [usersHas, List.any_eq_false]
  intro p hp
  simp only [usersRemove, List.mem_filter] at hp
  simpa using hp.2

theorem contains_peersRemove (ps : List String) (sid : String) :
    (peersRemove ps sid).contains sid = false := by
  simp [peersRemove]

theorem foldDisc_skip (sid : String) (l : List (String × Room)) :
    ∀ acc : Registry × List Emission,
    (∀ p ∈ l, usersHas p.2.users sid = false) →
    (l.foldl (fun acc kr =>
      if usersHas kr.2.users sid then
        let r := SocketManager.leaveRoom acc.1 kr.1 sid
        (r.1, acc.2 ++ r.2)
      else acc) acc) = acc := by
  induction l with
  | nil => intro acc _; rfl
  | cons x xs ih =>
      intro acc hno
      have hx : usersHas x.2.users sid = false := hno x (List.mem_cons_self _ _)
      simp only [List.foldl_cons, hx, Bool.false_eq_true, if_false]
      exact ih acc (fun p hp => hno p (List.mem_cons_of_mem _ hp))

theorem foldDisc_other (sid k : String) (l : List (String × Room)) :
    ∀ acc : Registry × List Emission,
    (∀ p ∈ l, p.1 ≠ k) →
    regGet ((l.foldl (fun acc kr =>
      if usersHas kr.2.users sid then
        let r := SocketManager.leaveRoom acc.1 kr.1 sid
        (r.1, acc.2 ++ r.2)
      else acc) acc)).1 k = regGet acc.1 k := by
  induction l with
  | nil => intro acc _; rfl
  | cons x xs ih =>
      intro acc hne
      simp only [List.foldl_cons]
      rw [ih _ (fun p hp => hne p (List.mem_cons_of_mem _ hp))]
      by_cases hg : usersHas x.2.users sid = true
      · simp only [hg, if_true]
        exact leaveRoom_regGet_ne acc.1 x.1 sid k
          (fun hh => hne x (List.mem_cons_self _ _) hh.symm)
      · simp only [Bool.not_eq_true] at hg
        simp [hg]

theorem updateCode_presence (st : Registry) (rid : String)
    (code userId : Option String) (k : String) (h : (regGet st k).isSome) :
    (regGet (SocketManager.updateCode st rid code userId).1 k).isSome := by
  unfold SocketManager.updateCode
  rcases hg : regGet st rid with _ | room
  · exact h
  · exact regGet_isSome_regSet st rid k _ h

theorem updateLanguage_presence (st : Registry) (rid lang k : String)
    (h : (regGet st k).isSome) :
    (regGet (SocketManager.updateLanguage st rid lang).1 k).isSome := by
  unfold SocketManager.updateLanguage
  rcases hg : regGet st rid with _ | room
  · exact h
  · exact regGet_isSome_regSet st rid k _ h

theorem broadcastMessage_presence (st : Registry) (rid mi m un ui k : String)
    (h : (regGet st k).isSome) :
    (regGet (SocketManager.broadcastMessage st rid mi m un ui).1 k).isSome := by
  unfold SocketManager.broadcastMessage
  rcases hg : regGet st rid with _ | room <;> exact h

theorem broadcastCursor_presence (st : Registry) (rid sid un p k : String)
    (h : (regGet st k).isSome) :
    (regGet (SocketManager.broadcastCursor st rid sid un p).1 k).isSome := by
  unfold SocketManager.broadcastCursor
  rcases hg : regGet st rid with _ | room <;> exact h

theorem joinCall_presence (st : Registry) (rid sid k : String)
    (h : (regGet st k).isSome) :
    (regGet (SocketManager.joinCall st rid sid).1 k).isSome := by
  unfold SocketManager.joinCall
  rcases hg : regGet st rid with _ | room
  · exact h
  · exact regGet_isSome_regSet st rid k _ h

theorem getCallPeers_presence (st : Registry) (rid sid k : String)
    (h : (regGet st k).isSome) :
    (regGet (SocketManager.getCallPeers st rid sid).1 k).isSome := by
  unfold SocketManager.getCallPeers
  rcases hg : regGet st rid with _ | room <;> exact h

theorem leaveCall_presence (st : Registry) (rid sid k : String)
    (h : (regGet st k).isSome) :
    (regGet (SocketManager.leaveCall st rid sid).1 k).isSome := by
  unfold SocketManager.leaveCall
  rcases hg : regGet st rid with _ | room
  · exact h
  · exact regGet_isSome_regSet st rid k _ h

theorem relayRtc_presence (st : Registry) (kind : RtcKind)
    (fromId rid toId payload k : String) (h : (regGet st k).isSome) :
    (regGet (SocketManager.relayRtc st kind fromId rid toId payload).1 k).isSome := by
  unfold SocketManager.relayRtc
  rcases hg : regGet st rid with _ | room
  · exact h
  · by_cases hm : usersHas room.users toId = true
    · simp only [hm, if_true]
      exact h
    · simp only [Bool.not_eq_true] at hm
      simp only [hm, Bool.false_eq_true, if_false]
      exact h

theorem managerJoinRoom_presence (st : Registry) (rid selfId userName k : String)
    (h : (regGet st k).isSome) :
    (regGet (SocketManager.joinRoom st rid selfId userName).1 k).isSome :=
  regGet_isSome_regSet st rid k _ h

theorem handleDisconnect_presence (st : Registry) (sid k : String)
    (h : (regGet st k).isSome) :
    (regGet (handleDisconnect st sid).1 k).isSome := by
  unfold handleDisconnect
  suffices H : ∀ (l : List (String × Room)) (acc : Registry × List Emission),
      (regGet acc.1 k).isSome →
      (regGet ((l.foldl (fun acc kr =>
        if usersHas kr.2.users sid then
          let r := SocketManager.leaveRoom acc.1 kr.1 sid
          (r.1, acc.2 ++ r.2)
        else acc) acc)).1 k).isSome from H st (st, []) h
  intro l
  induction l with
  | nil => intro acc hacc; simpa using hacc
  | cons x xs ih =>
      intro acc hacc
      simp only [List.foldl_cons]
      apply ih
      by_cases hg : usersHas x.2.users sid = true
      · simp only [hg, if_true]
        exact leaveRoom_presence acc.1 x.1 sid k hacc
      · simp only [Bool.not_eq_true] at hg
        simp only [hg, Bool.false_eq_true, if_false]
        exact hacc

theorem step_presence (st : Registry) (k : String) (ev : InEvent)
    (h : (regGet st k).isSome) : (regGet (step st ev).1 k).isSome := by
  cases ev with
  | createRoom selfId roomName userName randDigits dbOk =>
      cases dbOk
      · exact h
      · exact managerJoinRoom_presence st (genRoomId randDigits) selfId userName k h
  | joinRoom selfId roomId userName =>
      simp only [step, handleJoinRoom]
      rcases hr : regGet st (upStr roomId) with _ | room
      · exact h
      · exact managerJoinRoom_presence st (upStr roomId) selfId userName k h
  | codeChange roomId code userId =>
      rcases roomId with _ | r
      · exact h
      · by_cases hr : r = ""
        · subst hr
          exact h
        · simp only [step, handleCodeChange]
          rw [if_neg hr]
          exact updateCode_presence st r code userId k h
  | languageChange roomId language =>
      rcases roomId with _ | r
      · exact h
      · rcases language with _ | lg
        · exact h
        · simp only [step, handleLanguageChange]
          by_cases hr : r = "" ∨ lg = ""
          · rw [if_pos hr]
            exact h
          · rw [if_neg hr]
            exact updateLanguage_presence st r lg k h
  | chatMessage selfId roomId message userName msgId =>
      rcases roomId with _ | r
      · exact h
      · rcases message with _ | m
        · exact h
        · rcases userName with _ | un
          · exact h
          · simp only [step, handleChatMessage]
            by_cases hr : r = "" ∨ m = "" ∨ un = ""
            · rw [if_pos hr]
              exact h
            · rw [if_neg hr]
              exact broadcastMessage_presence st r msgId m un selfId k h
  | cursorPosition selfId roomId position userName =>
      rcases roomId with _ | r
      · exact h
      · rcases position with _ | p
        · exact h
        · simp only [step, handleCursorPosition]
          by_cases hr : r = "" ∨ p = ""
          · rw [if_pos hr]
            exact h
          · rw [if_neg hr]
            exact broadcastCursor_presence st r selfId (userName.getD "") p k h
  | joinCall selfId roomId => exact joinCall_presence st roomId selfId k h
  | getCallPeers selfId roomId => exact getCallPeers_presence st roomId selfId k h
  | leaveCall selfId roomId => exact leaveCall_presence st roomId selfId k h
  | rtc kind selfId roomId toId payload =>
      exact relayRtc_presence st kind selfId roomId toId payload k h
  | disconnect selfId => exact handleDisconnect_presence st selfId k h

/-- C6: a room present in the registry survives every inbound event — no
operation, in particular no leave or disconnect of its last participant,
ever deletes it — and a disconnect only removes the disconnected participant
from the room's user map (and call peers), leaving name, creator, document
and language untouched. -/
theorem rooms_never_deleted (st : Registry) (k : String) (room : Room)
    (h : regGet st k = some room) (hnd : (st.map Prod.fst).Nodup) :
    (∀ ev : InEvent, (regGet (step st ev).1 k).isSome = true)
    ∧ ∀ sid, ∃ room2, regGet (handleDisconnect st sid).1 k = some room2
        ∧ room2.users = usersRemove room.users sid
        ∧ room2.code = room.code ∧ room2.language = room.language
        ∧ room2.name = room.name ∧ room2.createdBy = room.createdBy := by
  constructor
  · intro ev
    exact step_presence st k ev (by simp [h])
  · intro sid
    obtain ⟨l1, l2, hdec⟩ := List.append_of_mem (regGet_mem st k room h)
    have hnd' := hnd
    rw [hdec, List.map_append, List.map_cons, List.nodup_append] at hnd'
    obtain ⟨hn1, hn2, hdisj⟩ := hnd'
    have hk1 : ∀ p ∈ l1, p.1 ≠ k := by
      intro p hp hpk
      have hmem : p.1 ∈ List.map Prod.fst l1 := List.mem_map_of_mem Prod.fst hp
      rw [hpk] at hmem
      exact hdisj hmem (List.mem_cons_self _ _)
    have hk2 : ∀ p ∈ l2, p.1 ≠ k := by
      intro p hp hpk
      have hmem : p.1 ∈ List.map Prod.fst l2 := List.mem_map_of_mem Prod.fst hp
      rw [hpk] at hmem
      exact (List.nodup_cons.mp hn2).1 hmem
    rw [hdec] at h ⊢
    unfold handleDisconnect
    rw [List.foldl_append, List.foldl_cons]
    have hacc1 : regGet (List.foldl (fun acc kr =>
        if usersHas kr.2.users sid then
          let r := SocketManager.leaveRoom acc.1 kr.1 sid
          (r.1, acc.2 ++ r.2)
        else acc) ((l1 ++ (k, room) :: l2 : Registry), ([] : List Emission)) l1).1 k
        = some room := by
      rw [foldDisc_other sid k l1 _ hk1]
      exact h
    rw [foldDisc_other sid k l2 _ hk2]
    dsimp only
    by_cases hg : usersHas room.users sid = true
    · refine ⟨Room.mk room.name room.createdBy room.code room.language
        (usersRemove room.users sid) (peersRemove room.callPeers sid),
        ?_, rfl, rfl, rfl, rfl, rfl⟩
      simp only [hg, if_true]
      rw [leaveRoom_hit _ k sid room hacc1]
      exact regGet_regSet_self _ _ _
    · simp only [Bool.not_eq_true] at hg
      refine ⟨room, ?_, (usersRemove_not_has room.users sid hg).symm, rfl, rfl, rfl, rfl⟩
      simp only [hg, Bool.false_eq_true, if_false]
      exact hacc1

/-- C6 witness: disconnecting A from room "R" leaves the room in the
registry with only the membership shrunk. -/
theorem rooms_never_deleted_witness :
    ∃ room2, regGet (handleDisconnect
        [("R", Room.mk "demo" "Alice" (some "") "javascript"
            [("A", "Alice"), ("B", "Bob")] ["A", "B"])] "A").1 "R" = some room2
      ∧ room2.users = usersRemove [("A", "Alice"), ("B", "Bob")] "A"
      ∧ room2.code = some "" ∧ room2.language = "javascript"
      ∧ room2.name = "demo" ∧ room2.createdBy = "Alice" :=
  (rooms_never_deleted
    [("R", Room.mk "demo" "Alice" (some "") "javascript"
        [("A", "Alice"), ("B", "Bob")] ["A", "B"])] "R"
    (Room.mk "demo" "Alice" (some "") "javascript"
        [("A", "Alice"), ("B", "Bob")] ["A", "B"])
    (by decide) (by decide)).2 "A"

/-- C7: when a connection that is in a room's call disconnects (and is in no
other room), the hub removes it from that room's membership and from the
call's peer set exactly once, emits exactly one user-left-call notification
per remaining peer of the call, and broadcasts the updated presence list to
the remaining room members. -/
theorem disconnect_while_in_call (st : Registry) (rid sid : String) (room : Room)
    (h : regGet st rid = some room) (hnd : (st.map Prod.fst).Nodup)
    (huser : usersHas room.users sid = true)
    (hpeer : room.callPeers.contains sid = true)
    (hpnd : room.callPeers.Nodup)
    (honly : ∀ p ∈ st, p.1 ≠ rid → usersHas p.2.users sid = false) :
    (∃ room2, regGet (handleDisconnect st sid).1 rid = some room2
      ∧ room2.users = usersRemove room.users sid
      ∧ usersHas room2.users sid = false
      ∧ room2.callPeers = peersRemove room.callPeers sid
      ∧ room2.callPeers.contains sid = false)
    ∧ (handleDisconnect st sid).2.filter isUserLeftCall
        = (peersRemove room.callPeers sid).map
            (fun p => (p, ServerEvent.userLeftCall sid))
    ∧ (peersRemove room.callPeers sid).Nodup
    ∧ (∀ u ∈ usersRemove room.users sid,
        (u.1, ServerEvent.usersUpdate (usersRemove room.users sid))
          ∈ (handleDisconnect st sid).2) := by
  obtain ⟨l1, l2, hdec⟩ := List.append_of_mem (regGet_mem st rid room h)
  subst hdec
  have hnd' := hnd
  rw [List.map_append, List.map_cons, List.nodup_append] at hnd'
  obtain ⟨hn1, hn2, hdisj⟩ := hnd'
  have hk1 : ∀ p ∈ l1, p.1 ≠ rid := by
    intro p hp hpk
    have hmem : p.1 ∈ List.map Prod.fst l1 := List.mem_map_of_mem Prod.fst hp
    rw [hpk] at hmem
    exact hdisj hmem (List.mem_cons_self _ _)
  have hk2 : ∀ p ∈ l2, p.1 ≠ rid := by
    intro p hp hpk
    have hmem : p.1 ∈ List.map Prod.fst l2 := List.mem_map_of_mem Prod.fst hp
    rw [hpk] at hmem
    exact (List.nodup_cons.mp hn2).1 hmem
  have hs1 : ∀ p ∈ l1, usersHas p.2.users sid = false := fun p hp =>
    honly p (List.mem_append_left _ hp) (hk1 p hp)
  have hs2 : ∀ p ∈ l2, usersHas p.2.users sid = false := fun p hp =>
    honly p (List.mem_append_right _ (List.mem_cons_of_mem _ hp)) (hk2 p hp)
  have hEq : handleDisconnect (l1 ++ (rid, room) :: l2) sid
      = ((SocketManager.leaveRoom (l1 ++ (rid, room) :: l2) rid sid).1,
         (SocketManager.leaveRoom (l1 ++ (rid, room) :: l2) rid sid).2) := by
    unfold handleDisconnect
    rw [List.foldl_append, List.foldl_cons, foldDisc_skip sid l1 _ hs1]
    dsimp only
    rw [if_pos huser, foldDisc_skip sid l2 _ hs2]
    simp
  rw [hEq, leaveRoom_hit _ rid sid room h, if_pos hpeer]
  refine ⟨⟨Room.mk room.name room.createdBy room.code room.language
      (usersRemove room.users sid) (peersRemove room.callPeers sid),
      regGet_regSet_self _ _ _, rfl, usersHas_usersRemove _ _, rfl,
      contains_peersRemove _ _⟩, ?_, hpnd.filter _, ?_⟩
  · rw [List.filter_append]
    have hca : List.filter isUserLeftCall ((peersRemove room.callPeers sid).map
        (fun p => (p, ServerEvent.userLeftCall sid)))
        = (peersRemove room.callPeers sid).map
            (fun p => (p, ServerEvent.userLeftCall sid)) := by
      rw [List.filter_eq_self]
      intro e he
      obtain ⟨p, _, rfl⟩ := List.mem_map.mp he
      rfl
    have hpr : List.filter isUserLeftCall ((usersRemove room.users sid).map
        (fun u => (u.1, ServerEvent.usersUpdate (usersRemove room.users sid)))) = [] := by
      rw [List.filter_eq_nil_iff]
      intro e he
      obtain ⟨u, _, rfl⟩ := List.mem_map.mp he
      simp [isUserLeftCall]
    rw [hca, hpr, List.append_nil]
  · intro u hu
    exact List.mem_append_right _ (List.mem_map_of_mem _ hu)

/-- C7 witness: A disconnects from room "R" while in its call with B; the
hub emits the user-left-call notifications exactly for remaining peer B. -/
theorem disconnect_while_in_call_witness :
    (handleDisconnect
        [("R", Room.mk "demo" "Alice" (some "") "javascript"
            [("A", "Alice"), ("B", "Bob"), ("C", "Carol")] ["A", "B"])] "A").2.filter
        isUserLeftCall
      = (peersRemove ["A", "B"] "A").map
          (fun p => (p, ServerEvent.userLeftCall "A")) :=
  (disconnect_while_in_call
    [("R", Room.mk "demo" "Alice" (some "") "javascript"
        [("A", "Alice"), ("B", "Bob"), ("C", "Carol")] ["A", "B"])] "R" "A"
    (Room.mk "demo" "Alice" (some "") "javascript"
        [("A", "Alice"), ("B", "Bob"), ("C", "Carol")] ["A", "B"])
    (by decide) (by decide) (by decide) (by decide) (by decide)
    (by decide)).2.1
